import Mathlib

/-!
Shallow embedding of the MIOpen flexgemm convolution planner
(`src/solver/conv_flexgemm_static_params.cpp`-style translation unit):
the bounded magic-division synthesizer `idiv_magic`, the routine
selectors, the alignment resolver, the scratch-size calculator
`get_auxbuf_size`, and the plan builders `build_params_conv` /
`build_params_ufconv`.

Machine integers are modelled as `Nat` with explicit reductions
modulo `2^32` (`w32`, for `uint32_t` arithmetic) and modulo `2^64`
(`w64`, for `size_t` arithmetic) exactly where the C source performs
the corresponding fixed-width operation.
-/

/-- `2^32`, the modulus of `uint32_t` arithmetic. -/
def U32 : Nat := 4294967296

/-- `2^64`, the modulus of `size_t` arithmetic. -/
def U64 : Nat := 18446744073709551616

/-- Reduction into `uint32_t` range: the value of a 32-bit unsigned result. -/
def w32 (x : Nat) : Nat := x % U32

/-- Reduction into `size_t` range: the value of a 64-bit unsigned result. -/
def w64 (x : Nat) : Nat := x % U64

/-- Wrapping `uint32_t` subtraction `a - b` for `a, b < 2^32`. -/
def sub32 (a b : Nat) : Nat := (a + (U32 - b % U32)) % U32

/-- Number of set bits of a 32-bit value (`__builtin_popcount`): the first
argument is the number of remaining halving rounds, 32 for a full
`uint32_t`. -/
def popcount32 : Nat → Nat → Nat
  | 0, _ => 0
  | fuel + 1, n => if n = 0 then 0 else n % 2 + popcount32 fuel (n / 2)

/-- `bim_fls`: ORs `n` with its right shifts at 1,2,4,8,16 to flood all bits
below the highest set bit, then counts set bits; for a 32-bit `n` this is the
one-based position of the highest set bit (0 for 0). -/
def bim_fls (n : Nat) : Nat :=
  let n1 := n ||| (n >>> 1)
  let n2 := n1 ||| (n1 >>> 2)
  let n3 := n2 ||| (n2 >>> 4)
  let n4 := n3 ||| (n3 >>> 8)
  let n5 := n4 ||| (n4 >>> 16)
  popcount32 32 n5

/-- `miopen::flexgemm::magic_t`: the multiplier/shift pair. The struct itself
is declared in the (absent) header `flexgemm_param.hpp`; its two `uint32_t`
fields `m` and `s` are evident from every use in this translation unit
(`magic={1,0}`, `magic.m=-1`, `magic.s=-1`). -/
structure magic_t where
  m : Nat
  s : Nat
deriving DecidableEq, Repr

/-- The intermediate bound `nc` of `idiv_magic`:
`uint64_t nc=((nmax+1)/d)*d-1;` — computed entirely in `uint32_t`
arithmetic (both operands of each operation are `uint32_t`; the wrapped
32-bit result is then widened to `uint64_t`). -/
def idiv_nc (nmax d : Nat) : Nat :=
  sub32 (w32 (nmax + 1) / d * d) 1

/-- The candidate-shift search loop of `idiv_magic`: for `s` ranging over
`fuel` consecutive values starting at `s0`, test `exp > nc*mod` with
`exp = 2^s` and `mod = d-1-(exp-1)%d`; on the first success return the pair
`((exp+mod)/d` cast to `uint32_t`, `s)`. -/
def idivSearch (nc d : Nat) : Nat → Nat → Option magic_t
  | _, 0 => none
  | s, fuel + 1 =>
    let exp := 2 ^ s
    let md := d - 1 - (exp - 1) % d
    if nc * md < exp then some ⟨w32 ((exp + md) / d), s⟩
    else idivSearch nc d (s + 1) fuel

/-- `idiv_magic(nmax, d)`: the bounded fast-division synthesizer. Divisor 1
returns the identity pair; otherwise a search over shifts `0 ≤ s < 2*nbits+1`
either finds a valid pair or leaves the sentinel `(-1, -1)` (i.e.
`(2^32-1, 2^32-1)` as `uint32_t`). -/
def idiv_magic (nmax d : Nat) : magic_t :=
  if d = 1 then ⟨1, 0⟩
  else
    let nc := idiv_nc nmax d
    let nbits := bim_fls nmax
    let r := 2 * nbits + 1
    match idivSearch nc d 0 r with
    | some mg => mg
    | none => ⟨U32 - 1, U32 - 1⟩

/-- The sentinel returned by `idiv_magic` when the search fails. -/
def magicSentinel : magic_t := ⟨U32 - 1, U32 - 1⟩

/-- `choose_routine_ufconv(m, n, k, dir)`: the unit-filter routine selector.
Bit operations are written by their arithmetic meaning on 32-bit values:
`x>>4` is `/16`, `x&3` is `%4`, `(x&1)^1` is `1 - x%2`, and
`(mode<<16)|id` with disjoint bit ranges is `mode*65536 + id`. -/
def choose_routine_ufconv (m n k dir : Nat) : Nat :=
  let s := w32 (n + 31) / 32
  let t := w32 (n + 15) / 16
  let mode := (1 - m % 2) + (if m % 4 = 0 then 1 else 0)
  let id0 := 1 + (if s % 4 = 0 then (if k % 16 = 0 then 2 else 1) else 1 - s % 2)
  let id1 := if t % 2 ≠ 0 ∧ n ≤ 112 then 0 else id0
  let id2 :=
    if dir ≠ 0 ∧ id1 ≠ 0 then
      (if n % 4 ≠ 0 then (if n % 2 ≠ 0 then 1 else 2) else id1)
    else id1
  mode * 65536 + id2

/-- `choose_routine_fconv(n, k)`: the generic-forward routine selector.
Final expression of the source: `(((s&1)!=0)&&(n<=112)?1:((k&7)!=0?0:id))`,
so the narrow-N test is examined before the `k mod 8` test. -/
def choose_routine_fconv (n k : Nat) : Nat :=
  let r := w32 (n + 31) / 32
  let s := w32 (n + 15) / 16
  let id := 2 + (if r % 4 = 0 then (if k % 16 = 0 then 2 else 1) else 1 - r % 2)
  if s % 2 ≠ 0 ∧ n ≤ 112 then 1 else if k % 8 ≠ 0 then 0 else id

/-- `choose_routine_bconv(n)`: the generic-backward routine selector. -/
def choose_routine_bconv (n : Nat) : Nat :=
  let s := w32 (n + 15) / 16
  if s % 8 = 0 then 3 else if s % 4 = 0 then 2 else 1 - s % 2

/-- `get_alignment(id, dir)`: 127 for forward (`dir==0`) ids 1 and 4 and for
backward (`dir!=0`) ids 0 and 3, otherwise 255. -/
def get_alignment (id dir : Nat) : Nat :=
  if dir = 0 then (if id = 1 ∨ id = 4 then 127 else 255)
  else (if id = 0 ∨ id = 3 then 127 else 255)

/-- `(x + mask) & ~mask` on `uint32_t` for a low-bit mask `mask = 2^j - 1`
(all uses pass 3, 7, 15, 127 or 255): clears the `j` low bits of the 32-bit
sum, i.e. rounds the wrapped sum down to a multiple of `mask+1`. -/
def alignUp (x mask : Nat) : Nat :=
  w32 (x + mask) / (mask + 1) * (mask + 1)

/-- The problem descriptor. `ConvolutionContext` is declared outside this
translation unit; the planner only reads the fields below (each read into a
`uint32_t` local) and the direction predicate `direction.IsForward()`,
modelled as the `Bool` field `isForward`. -/
structure ConvolutionContext where
  pad_w : Nat
  pad_h : Nat
  group_counts : Nat
  batch_sz : Nat
  n_inputs : Nat
  in_width : Nat
  in_height : Nat
  kernel_size_w : Nat
  kernel_size_h : Nat
  out_width : Nat
  out_height : Nat
  n_outputs : Nat
  kernel_stride_w : Nat
  kernel_stride_h : Nat
  kernel_dilation_w : Nat
  kernel_dilation_h : Nat
  isForward : Bool
deriving DecidableEq, Repr

/-- Effective horizontal padding: `pu` after the backward mirroring
`pu = bnx - pu - 1` (wrapping `uint32_t` subtraction). -/
def effPu (ctx : ConvolutionContext) : Nat :=
  if ctx.isForward then ctx.pad_w
  else sub32 (sub32 ctx.kernel_size_w ctx.pad_w) 1

/-- Effective vertical padding: `pv` after the backward mirroring
`pv = bny - pv - 1`. -/
def effPv (ctx : ConvolutionContext) : Nat :=
  if ctx.isForward then ctx.pad_h
  else sub32 (sub32 ctx.kernel_size_h ctx.pad_h) 1

/-- Padded input width `pnx = anx + (pu << 1)`. -/
def pnxOf (ctx : ConvolutionContext) : Nat := w32 (ctx.in_width + 2 * effPu ctx)

/-- Padded input height `pny = any + (pv << 1)`. -/
def pnyOf (ctx : ConvolutionContext) : Nat := w32 (ctx.in_height + 2 * effPv ctx)

/-- Reduction depth `k = bnx * bny * inc`. -/
def kOf (ctx : ConvolutionContext) : Nat :=
  w32 (ctx.kernel_size_w * ctx.kernel_size_h * ctx.n_inputs)

/-- Output row pitch `ldc = cnx * cny`. -/
def ldcOf (ctx : ConvolutionContext) : Nat := w32 (ctx.out_width * ctx.out_height)

/-- Flattened row count `m = ldc * bs`. -/
def mOf (ctx : ConvolutionContext) : Nat := w32 (ldcOf ctx * ctx.batch_sz)

/-- The routine id chosen by `get_auxbuf_size` and `build_params_conv`:
the forward selector on `(n, k)` for forward problems, the backward selector
on `n` otherwise. -/
def idOf (ctx : ConvolutionContext) : Nat :=
  if ctx.isForward then choose_routine_fconv ctx.n_outputs (kOf ctx)
  else choose_routine_bconv ctx.n_outputs

/-- Rounded flattened tile count `ntidx = (m + temp) & ~temp` with `temp` the
resolved alignment mask. -/
def ntidxOf (ctx : ConvolutionContext) : Nat :=
  alignUp (mOf ctx) (get_alignment (idOf ctx) (if ctx.isForward then 0 else 1))

/-- The shared padding-buffer pitch computation: starting from
`lda = pnx*pny`, multiply by the batch size and, when the result exceeds
1024, round `(lda+63)>>6` up to an odd multiple and shift back. -/
def ldaScale (lda0 bs : Nat) : Nat :=
  let lda1 := w32 (lda0 * bs)
  if 1024 < lda1 then
    let t := w32 (lda1 + 63) / 64
    w32 ((t + (1 - t % 2)) * 64)
  else lda1

/-- `lda` as computed by `get_auxbuf_size(const ConvolutionContext&)`:
the scaling step is guarded by `(pu|pv) != 0`. -/
def ldaOf (ctx : ConvolutionContext) : Nat :=
  let lda0 := w32 (pnxOf ctx * pnyOf ctx)
  if (effPu ctx ||| effPv ctx) ≠ 0 then ldaScale lda0 ctx.batch_sz
  else lda0

/-- Rounded reduction depth `pk = (k + temp) & ~temp` with granularity mask
15 for the family's most aligned id (4 forward, 3 backward), else 7. -/
def pkOf (ctx : ConvolutionContext) : Nat :=
  let temp := if idOf ctx ≠ (if ctx.isForward then 4 else 3) then 7 else 15
  alignUp (kOf ctx) temp

/-- `ags = lda * inc` (a `uint32_t` product widened to `size_t`). -/
def agsOf (ctx : ConvolutionContext) : Nat := w32 (ldaOf ctx * ctx.n_inputs)

/-- Padding-buffer size `spad = (size_t)(ng<<2) * ags`, forced to 0 when
`(pu|pv) == 0`.  Both factors are below `2^32`, so the `size_t` product is
exact. -/
def spadOf (ctx : ConvolutionContext) : Nat :=
  if (effPu ctx ||| effPv ctx) = 0 then 0
  else w32 (4 * ctx.group_counts) * agsOf ctx

/-- Permutation-buffer size `sperm = (size_t)(ng<<2) * pk * ((n+3)&~3)`,
forced to 0 in the forward direction. The triple product is `size_t`
arithmetic, reduced modulo `2^64`. -/
def spermOf (ctx : ConvolutionContext) : Nat :=
  if ctx.isForward then 0
  else w64 (w32 (4 * ctx.group_counts) * pkOf ctx * alignUp ctx.n_outputs 3)

/-- Index-buffer size `sidx = (ntidx<<3) + (pk<<2) + 128` as computed by
`get_auxbuf_size(const ConvolutionContext&)`: `ntidx<<3` is a `uint32_t`
shift (wrapping), while `pk` is already a `size_t` there, so `pk<<2` and the
sum are 64-bit exact. -/
def sidxOf (ctx : ConvolutionContext) : Nat :=
  w32 (ntidxOf ctx * 8) + pkOf ctx * 4 + 128

/-- `get_auxbuf_size(const ConvolutionContext&)`: the total auxiliary size
`spad + sperm + sidx` (a `size_t` sum). -/
def get_auxbuf_size_ctx (ctx : ConvolutionContext) : Nat :=
  w64 (spadOf ctx + spermOf ctx + sidxOf ctx)

/-- The packed padding word `p.pad = (pv<<24)|(pv<<16)|(pu<<8)|pu` of
`build_params_conv` (each shift a wrapping `uint32_t` shift). -/
def padWord (ctx : ConvolutionContext) : Nat :=
  w32 (effPv ctx <<< 24) ||| w32 (effPv ctx <<< 16) |||
    w32 (effPu ctx <<< 8) ||| effPu ctx

/-- The packed stride/dilation word `p.sd = (dv<<18)|(du<<12)|(sv<<6)|su`. -/
def sdWord (ctx : ConvolutionContext) : Nat :=
  w32 (ctx.kernel_dilation_h <<< 18) ||| w32 (ctx.kernel_dilation_w <<< 12) |||
    w32 (ctx.kernel_stride_h <<< 6) ||| ctx.kernel_stride_w

/-- `lda` as computed by `build_params_conv`: the same scaling as in
`get_auxbuf_size`, but guarded by `p.pad != 0` instead of `(pu|pv) != 0`. -/
def ldaP (ctx : ConvolutionContext) : Nat :=
  let lda0 := w32 (pnxOf ctx * pnyOf ctx)
  if padWord ctx ≠ 0 then ldaScale lda0 ctx.batch_sz
  else lda0

/-- `miopen::flexgemm::param_conv_t`, the generic-family plan record. The
struct is declared in the absent header `flexgemm_param.hpp`; fields are
modelled from their uses here: the geometry fields hold `uint32_t` values and
the three scratch sizes are `size_t` (the overload
`get_auxbuf_size(const param_conv_t&)` sums them as `size_t`). -/
structure param_conv_t where
  dir : Nat
  ng : Nat
  bs : Nat
  inc : Nat
  anx : Nat
  any : Nat
  bnx : Nat
  bny : Nat
  cnx : Nat
  cny : Nat
  pnx : Nat
  pny : Nat
  k : Nat
  n : Nat
  pad : Nat
  sd : Nat
  ldc : Nat
  m : Nat
  id : Nat
  ntidx : Nat
  lda : Nat
  ags : Nat
  spad : Nat
  sperm : Nat
  sidx : Nat
deriving DecidableEq, Repr

/-- `build_params_conv(p, ctx)`: populates the generic-family plan. The
stages shared verbatim with `get_auxbuf_size` reuse the defs above; the parts
that differ do not: `lda`/`spad` are guarded by `p.pad != 0` (`ldaP`), and
`sidx = (p.ntidx<<3)+(pk<<2)+128` is computed entirely in `uint32_t` there
(local `pk` is `uint32_t` in this function). -/
def build_params_conv (ctx : ConvolutionContext) : param_conv_t :=
  { dir := if ctx.isForward then 0 else 1
    ng := ctx.group_counts
    bs := ctx.batch_sz
    inc := ctx.n_inputs
    anx := ctx.in_width
    any := ctx.in_height
    bnx := ctx.kernel_size_w
    bny := ctx.kernel_size_h
    cnx := ctx.out_width
    cny := ctx.out_height
    pnx := pnxOf ctx
    pny := pnyOf ctx
    k := kOf ctx
    n := ctx.n_outputs
    pad := padWord ctx
    sd := sdWord ctx
    ldc := ldcOf ctx
    m := mOf ctx
    id := idOf ctx
    ntidx := ntidxOf ctx
    lda := ldaP ctx
    ags := w32 (ldaP ctx * ctx.n_inputs)
    spad := if padWord ctx = 0 then 0
            else w32 (4 * ctx.group_counts) * w32 (ldaP ctx * ctx.n_inputs)
    sperm := if ctx.isForward then 0
             else w64 (w32 (4 * ctx.group_counts) * pkOf ctx *
               alignUp ctx.n_outputs 3)
    sidx := w32 (w32 (ntidxOf ctx * 8) + w32 (pkOf ctx * 4) + 128) }

/-- `get_auxbuf_size(const param_conv_t&)`: the sum of the three stored
scratch sizes (`size_t` addition). -/
def get_auxbuf_size_plan (p : param_conv_t) : Nat :=
  w64 (p.spad + p.sperm + p.sidx)

/-- `miopen::flexgemm::param_ufconv_t`, the unit-filter plan record, modelled
from its uses in `build_params_conv`-style fashion; `cmag` is written only
when `sx != sy` and is modelled as an `Option` (left `none` when the source
leaves the field unassigned). -/
structure param_ufconv_t where
  m : Nat
  n : Nat
  k : Nat
  dir : Nat
  id : Nat
  ng : Nat
  dimx : Nat
  ntidx : Nat
  amag : magic_t
  cmag : Option magic_t
deriving DecidableEq, Repr

/-- The lookup constant `selx = 0x924924`. -/
def selx : Nat := 0x924924

/-- The lookup constant `sely = 0x500000`. -/
def sely : Nat := 0x500000

/-- `build_params_ufconv(p, ctx)`: populates the unit-filter plan. The
combined table index is `id = (p.id&0xffff)*3 + (p.id>>16)`; the 2-bit shift
amounts `sx`, `sy` come from `selx`/`sely`; the alignment mask is 255 when
the low 16 bits of `p.id` are strictly between 0 and 3, else 127. -/
def build_params_ufconv (ctx : ConvolutionContext) : param_ufconv_t :=
  let m := w32 (ctx.in_width * ctx.in_height)
  let n := ctx.n_outputs
  let k := ctx.n_inputs
  let dir := if ctx.isForward then 0 else 1
  let pid := choose_routine_ufconv m n k dir
  let id := (pid % 65536) * 3 + pid / 65536
  let sx := (selx >>> (2 * id)) % 4
  let sy := (sely >>> (2 * id)) % 4
  let alignment := if 0 < pid % 65536 ∧ pid % 65536 < 3 then 255 else 127
  let dimx := w32 (m * ctx.batch_sz)
  let ntidx := alignUp dimx alignment
  { m := m, n := n, k := k, dir := dir, id := pid
    ng := ctx.group_counts
    dimx := dimx
    ntidx := ntidx
    amag := idiv_magic (ntidx >>> sx) (m >>> sx)
    cmag := if sx ≠ sy then some (idiv_magic (ntidx >>> sy) (m >>> sy))
            else none }

/-! Helper lemmas about the fixed-width arithmetic primitives. -/

theorem U32_eq : U32 = 4294967296 := rfl

theorem U64_eq : U64 = 18446744073709551616 := rfl

theorem w32_small {x : Nat} (h : x < U32) : w32 x = x := Nat.mod_eq_of_lt h

theorem w64_small {x : Nat} (h : x < U64) : w64 x = x := Nat.mod_eq_of_lt h

theorem sub32_eq_of_le {a b : Nat} (hb : b ≤ a) (ha : a < U32) :
    sub32 a b = a - b := by
  unfold sub32
  rw [U32_eq] at *
  omega

theorem lor_eq_zero_iff (a b : Nat) : (a ||| b) = 0 ↔ a = 0 ∧ b = 0 := by
  constructor
  · intro h
    refine ⟨Nat.zero_of_testBit_eq_false fun i => ?_,
      Nat.zero_of_testBit_eq_false fun i => ?_⟩
    · have hh := congrArg (fun x => Nat.testBit x i) h
      simp only [Nat.testBit_lor, Nat.zero_testBit, Bool.or_eq_false_iff] at hh
      exact hh.1
    · have hh := congrArg (fun x => Nat.testBit x i) h
      simp only [Nat.testBit_lor, Nat.zero_testBit, Bool.or_eq_false_iff] at hh
      exact hh.2
  · rintro ⟨rfl, rfl⟩
    rfl

theorem alignUp_eq {x mask : Nat} (h : x + mask < U32) :
    alignUp x mask = (x + mask) / (mask + 1) * (mask + 1) := by
  unfold alignUp
  rw [w32_small h]

theorem alignUp_le {x mask : Nat} (h : x + mask < U32) :
    alignUp x mask ≤ x + mask := by
  rw [alignUp_eq h]
  exact Nat.div_mul_le_self _ _

theorem le_alignUp {x mask : Nat} (h : x + mask < U32) : x ≤ alignUp x mask := by
  rw [alignUp_eq h]
  have hdm := Nat.div_add_mod (x + mask) (mask + 1)
  have hmod : (x + mask) % (mask + 1) ≤ mask := by
    have := Nat.mod_lt (x + mask) (show 0 < mask + 1 by omega)
    omega
  have hcomm : (x + mask) / (mask + 1) * (mask + 1) =
      (mask + 1) * ((x + mask) / (mask + 1)) := Nat.mul_comm _ _
  omega

theorem alignUp_mono {x y mask : Nat} (hxy : x ≤ y) (hy : y + mask < U32) :
    alignUp x mask ≤ alignUp y mask := by
  rw [alignUp_eq (by omega), alignUp_eq hy]
  exact Nat.mul_le_mul_right _ (Nat.div_le_div_right (by omega))

theorem alignUp_lower {x mask : Nat} (hx : 1 ≤ x) (h : x + mask < U32) :
    mask + 1 ≤ alignUp x mask := by
  rw [alignUp_eq h]
  have h1 : 1 ≤ (x + mask) / (mask + 1) := by
    rw [Nat.le_div_iff_mul_le (show 0 < mask + 1 by omega)]
    omega
  calc mask + 1 = 1 * (mask + 1) := by omega
  _ ≤ (x + mask) / (mask + 1) * (mask + 1) := Nat.mul_le_mul_right _ h1

/-- Core correctness of a successful magic-division candidate at shift `s`:
write `exp = 2^s` and `md = d - 1 - (exp-1) % d`, so that `exp + md` is the
least multiple of `d` that is at least `exp`. If the validity test
`nc * md < exp` passes, `d - 1 ≤ nc`, and every `j ≤ nmax` with
`j % d = d - 1` satisfies `j ≤ nc`, then multiplying by `(exp+md)/d` and
dividing by `exp` reproduces division by `d` for every `n ≤ nmax`. -/
theorem magic_core (d nc s nmax : Nat) (hd : 2 ≤ d)
    (hB : d - 1 ≤ nc)
    (hA : ∀ j, j ≤ nmax → j % d = d - 1 → j ≤ nc)
    (hlt : nc * (d - 1 - (2 ^ s - 1) % d) < 2 ^ s)
    (n : Nat) (hn : n ≤ nmax) :
    n * ((2 ^ s + (d - 1 - (2 ^ s - 1) % d)) / d) / 2 ^ s = n / d := by
  have hdpos : 0 < d := by omega
  have hexp1 : 1 ≤ 2 ^ s := Nat.one_le_two_pow
  set exp := 2 ^ s with hexp
  set md := d - 1 - (exp - 1) % d with hmd
  have hr0 : (exp - 1) % d < d := Nat.mod_lt _ hdpos
  have hq0 := (Nat.div_add_mod (exp - 1) d).symm
  set q0 := (exp - 1) / d with hq0d
  have hsum : exp + md = d * (q0 + 1) := by
    have hrngd : d * (q0 + 1) = d * q0 + d := by ring
    omega
  set M := (exp + md) / d with hM
  have hMval : M = q0 + 1 := by rw [hM, hsum, Nat.mul_div_cancel_left _ hdpos]
  have hMd : d * M = exp + md := by rw [hMval, ← hsum]
  set q := n / d with hq
  set r := n % d with hr
  have hnqr : n = d * q + r := (Nat.div_add_mod _ _).symm
  have hrd : r < d := Nat.mod_lt _ hdpos
  have hlow : q * exp ≤ n * M := by
    calc q * exp ≤ q * (exp + md) := Nat.mul_le_mul_left q (Nat.le_add_right _ _)
    _ = q * (d * M) := by rw [hMd]
    _ = d * q * M := by ring
    _ ≤ n * M := Nat.mul_le_mul_right M (by omega)
  have hkey : n * md + r * exp < d * exp := by
    rcases Nat.lt_or_ge r (d - 1) with hrlt | hrge
    · rcases Nat.eq_zero_or_pos md with hmd0 | hmd1
      · have h1 : r * exp < d * exp :=
          (Nat.mul_lt_mul_right (show 0 < exp by omega)).mpr (by omega)
        have h2 : n * md = 0 := by rw [hmd0, Nat.mul_zero]
        omega
      · have hnmd : n * md < 2 * exp := by
          rcases Nat.eq_zero_or_pos q with hq0z | hq1
          · have hdq : d * q = 0 := by rw [hq0z, Nat.mul_zero]
            have hnr : n = r := by omega
            have hn1 : n + 1 ≤ nc := by omega
            have h2 : (n + 1) * md ≤ nc * md := Nat.mul_le_mul_right md hn1
            have h3 : (n + 1) * md = n * md + md := by ring
            omega
          · obtain ⟨q1, hq1e⟩ : ∃ q1, q = q1 + 1 := ⟨q - 1, by omega⟩
            have hda : d * q = d * q1 + d := by rw [hq1e]; ring
            have hjle : d * q1 + (d - 1) ≤ nmax := by omega
            have hjmod : (d * q1 + (d - 1)) % d = d - 1 := by
              rw [Nat.mul_add_mod]
              exact Nat.mod_eq_of_lt (by omega)
            have hjnc : d * q1 + (d - 1) ≤ nc := hA _ hjle hjmod
            have hnle : n ≤ nc + r + 1 := by omega
            have h4 : n * md ≤ (nc + r + 1) * md := Nat.mul_le_mul_right md hnle
            have h5 : (nc + r + 1) * md = nc * md + (r + 1) * md := by ring
            have h6 : (r + 1) * md ≤ nc * md := Nat.mul_le_mul_right md (by omega)
            omega
        have h7 : (r + 2) * exp ≤ d * exp := Nat.mul_le_mul_right exp (by omega)
        have h8 : (r + 2) * exp = r * exp + 2 * exp := by ring
        omega
    · have hreq : r = d - 1 := by omega
      have hnnc : n ≤ nc := hA n hn (by rw [← hr]; omega)
      have h5 : n * md ≤ nc * md := Nat.mul_le_mul_right md hnnc
      have h7 : (r + 1) * exp ≤ d * exp := Nat.mul_le_mul_right exp (by omega)
      have h8 : (r + 1) * exp = r * exp + exp := by ring
      omega
  have hup : n * M < (q + 1) * exp := by
    have h8 : n * M * d = d * q * exp + r * exp + n * md := by
      calc n * M * d = n * (d * M) := by ring
      _ = n * (exp + md) := by rw [hMd]
      _ = (d * q + r) * (exp + md) := by rw [← hnqr]
      _ = d * q * exp + r * exp + (d * q + r) * md := by ring
      _ = d * q * exp + r * exp + n * md := by rw [← hnqr]
    have h9 : (q + 1) * exp * d = d * q * exp + d * exp := by ring
    have hmul : n * M * d < (q + 1) * exp * d := by omega
    exact Nat.lt_of_mul_lt_mul_right hmul
  exact Nat.div_eq_of_lt_le hlow hup

/-- A successful run of the candidate search returns a pair whose shift
passed the validity test and whose multiplier is the 32-bit cast of
`(exp + mod) / d` at that shift. -/
theorem idivSearch_eq_some (nc d : Nat) :
    ∀ fuel s0 mg, idivSearch nc d s0 fuel = some mg →
      nc * (d - 1 - (2 ^ mg.s - 1) % d) < 2 ^ mg.s ∧
      mg.m = w32 ((2 ^ mg.s + (d - 1 - (2 ^ mg.s - 1) % d)) / d) := by
  intro fuel
  induction fuel with
  | zero => intro s0 mg h; simp [idivSearch] at h
  | succ fuel ih =>
    intro s0 mg h
    rw [idivSearch] at h
    by_cases hc : nc * (d - 1 - (2 ^ s0 - 1) % d) < 2 ^ s0
    · simp only [hc, if_pos] at h
      cases h
      exact ⟨hc, rfl⟩
    · simp only [hc, if_neg, not_false_iff] at h
      exact ih (s0 + 1) mg h

/-- The value of `idiv_nc`: floor-division based, with the 32-bit wrap to
`2^32 - 1` when the quotient `(nmax+1)/d` (taken on the wrapped 32-bit value
of `nmax+1`) is zero. -/
theorem idiv_nc_eq (nmax d : Nat) (hd : 2 ≤ d) :
    idiv_nc nmax d =
      if w32 (nmax + 1) / d = 0 then U32 - 1 else w32 (nmax + 1) / d * d - 1 := by
  unfold idiv_nc
  set a := w32 (nmax + 1) with ha
  have haU : a < U32 := Nat.mod_lt _ (by rw [U32_eq]; omega)
  rcases Nat.eq_zero_or_pos (a / d) with hf | hf
  · rw [hf, if_pos rfl, Nat.zero_mul]
    decide
  · rw [if_neg (by omega)]
    have hle : a / d * d ≤ a := Nat.div_mul_le_self a d
    have h2 : d ≤ a / d * d := by
      calc d = 1 * d := by omega
      _ ≤ a / d * d := Nat.mul_le_mul_right d hf
    rw [sub32_eq_of_le (by omega) (by omega)]

/-- The computed `nc` dominates the `d`-block structure of `[0, nmax]`:
it is at least `d - 1`, and at least every `j ≤ nmax` with residue `d - 1`.
These are the two facts `magic_core` needs. -/
theorem idiv_nc_props (nmax d : Nat) (hd : 2 ≤ d) (hdU : d < U32)
    (hn : nmax < U32) :
    d - 1 ≤ idiv_nc nmax d ∧
      ∀ j, j ≤ nmax → j % d = d - 1 → j ≤ idiv_nc nmax d := by
  rw [idiv_nc_eq nmax d hd]
  set a := w32 (nmax + 1) with ha
  rcases Nat.eq_zero_or_pos (a / d) with hf | hf
  · rw [hf, if_pos rfl]
    constructor
    · rw [U32_eq] at *; omega
    · intro j hj _
      rw [U32_eq] at *; omega
  · rw [if_neg (by omega)]
    have hana : a = nmax + 1 := by
      have : nmax + 1 < U32 ∨ nmax + 1 = U32 := by omega
      rcases this with h1 | h1
      · rw [ha, w32_small h1]
      · exfalso
        rw [ha, h1] at hf
        unfold w32 at hf
        simp at hf
    have hfd : d ≤ a / d * d := by
      calc d = 1 * d := by omega
      _ ≤ a / d * d := Nat.mul_le_mul_right d hf
    constructor
    · omega
    · intro j hj hmod
      have hjd : j % d < d := Nat.mod_lt _ (by omega)
      have hdm := (Nat.div_add_mod j d).symm
      set qj := j / d with hqj
      have hjq : j = d * qj + (d - 1) := by omega
      have hq1 : (qj + 1) * d ≤ nmax + 1 := by
        have : (qj + 1) * d = d * qj + d := by ring
        omega
      have hq2 : qj + 1 ≤ (nmax + 1) / d :=
        (Nat.le_div_iff_mul_le (by omega)).mpr hq1
      have hq3 : (qj + 1) * d ≤ (nmax + 1) / d * d :=
        Nat.mul_le_mul_right d hq2
      have hq4 : (qj + 1) * d = d * qj + d := by ring
      rw [hana]
      omega

/-! Claim theorems for the fast-division synthesizer. -/

/-- C1 (amended): for every divisor `d ≥ 1`, bound `nmax` and dividend
`n ≤ nmax` (32-bit values), if `idiv_magic(nmax, d)` does not return the
failure sentinel and its stored multiplier is the untruncated quotient
`(2^s + mod) / d` at the returned shift `s` (i.e. the cast to `uint32_t`
did not overflow), then `n / d = (n * multiplier) >> shift`, exactly
matching unsigned integer division. The no-overflow proviso is the
amendment: without it the original claim fails (see the counterexample at
`nmax = 2^32 - 1`, `d = 7`). -/
theorem C1_idiv_magic_exact (nmax d : Nat) (hd : 1 ≤ d) (hn : nmax < U32)
    (hdU : d < U32) (hns : idiv_magic nmax d ≠ magicSentinel)
    (hfit : (idiv_magic nmax d).m =
      (2 ^ (idiv_magic nmax d).s +
        (d - 1 - (2 ^ (idiv_magic nmax d).s - 1) % d)) / d)
    (n : Nat) (hnle : n ≤ nmax) :
    (n * (idiv_magic nmax d).m) >>> (idiv_magic nmax d).s = n / d := by
  rw [Nat.shiftRight_eq_div_pow]
  by_cases hd1 : d = 1
  · subst hd1
    have hres : idiv_magic nmax 1 = ⟨1, 0⟩ := by simp [idiv_magic]
    rw [hres]
    simp
  · have hd2 : 2 ≤ d := by omega
    rcases hE : idivSearch (idiv_nc nmax d) d 0 (2 * bim_fls nmax + 1) with
      _ | mg
    · exfalso
      apply hns
      rw [idiv_magic, if_neg hd1]
      simp only [hE]
      rfl
    · have hres : idiv_magic nmax d = mg := by
        rw [idiv_magic, if_neg hd1]
        simp only [hE]
      rw [hres] at hfit ⊢
      obtain ⟨hlt, _⟩ := idivSearch_eq_some (idiv_nc nmax d) d _ _ _ hE
      obtain ⟨hB, hA⟩ := idiv_nc_props nmax d hd2 hdU hn
      rw [hfit]
      exact magic_core d (idiv_nc nmax d) mg.s nmax hd2 hB hA hlt n hnle

/-- Witness for C1: at `nmax = 10`, `d = 3` the synthesizer returns
`(11, 5)`, the multiplier is untruncated, and `7 / 3` is reproduced. -/
theorem C1_witness :
    (7 * (idiv_magic 10 3).m) >>> (idiv_magic 10 3).s = 7 / 3 :=
  C1_idiv_magic_exact 10 3 (by decide) (by decide) (by decide) (by decide)
    (by decide) 7 (by decide)

/-- Counterexample to C1 as stated: at `nmax = 2^32 - 1`, `d = 7` the
synthesizer succeeds at shift 35 with the true multiplier `ceil(2^35/7) =
4908534053`, which wraps to `613566757` as `uint32_t`; the returned pair is
not the sentinel, yet it fails to divide `n = 7` (the product shifted gives
0, not 1). -/
theorem C1_counterexample :
    idiv_magic (U32 - 1) 7 ≠ magicSentinel ∧
    (7 : Nat) ≤ U32 - 1 ∧
    (7 * (idiv_magic (U32 - 1) 7).m) >>> (idiv_magic (U32 - 1) 7).s ≠
      7 / 7 := by
  decide

/-- C5 (amended): the intermediate bound is computed with a floor division,
`nc = floor((nmax+1)/d) * d - 1`, in wrapping 32-bit arithmetic: when the
quotient is nonzero this is `floor((nmax+1)/d)*d - 1`, and when the quotient
is zero (`nmax + 1 < d` on the wrapped value, or `nmax = 2^32 - 1`) the
subtraction wraps to `2^32 - 1`. The original claim's `ceil` is wrong
whenever `d` does not divide `nmax + 1` (see the counterexample). -/
theorem C5_nc_floor (nmax d : Nat) (hd : 2 ≤ d) :
    idiv_nc nmax d =
      if w32 (nmax + 1) / d = 0 then U32 - 1
      else w32 (nmax + 1) / d * d - 1 :=
  idiv_nc_eq nmax d hd

/-- Witness for C5: at `nmax = 10`, `d = 3` the bound is `3*3 - 1 = 8`. -/
theorem C5_witness :
    (2 ≤ 3) ∧
      (idiv_nc 10 3 =
        if w32 (10 + 1) / 3 = 0 then U32 - 1 else w32 (10 + 1) / 3 * 3 - 1) :=
  ⟨by decide, C5_nc_floor 10 3 (by decide)⟩

/-- Counterexample to C5 as stated: at `nmax = 2`, `d = 2` the code computes
`nc = floor(3/2)*2 - 1 = 1`, while `ceil(3/2)*2 - 1 = 3`. -/
theorem C5_counterexample :
    idiv_nc 2 2 = 1 ∧ (2 + 1 + (2 - 1)) / 2 * 2 - 1 = 3 ∧
      idiv_nc 2 2 ≠ (2 + 1 + (2 - 1)) / 2 * 2 - 1 := by
  decide

/-- C8 (confirmed): for every bound `nmax`, division by 1 immediately yields
the identity pair `(multiplier = 1, shift = 0)`. -/
theorem C8_divisor_one_identity (nmax : Nat) : idiv_magic nmax 1 = ⟨1, 0⟩ := by
  simp [idiv_magic]

/-- C9 (amended): for `d ≥ 2` and `nmax + 1 < d`, the expression
`((nmax+1)/d)*d - 1` wraps in unsigned 32-bit (not 64-bit) arithmetic, so
`nc = 2^32 - 1` (not `2^64 - 1`); the result is not always the sentinel
(see the counterexample `idiv_magic(1, 4) = (1, 2)`), but for `nmax = 0`
every `d ≥ 2` does yield the sentinel. -/
theorem C9_underflow_nc (nmax d : Nat) (hd : 2 ≤ d) (hdU : d < U32)
    (hlt : nmax + 1 < d) :
    idiv_nc nmax d = U32 - 1 ∧
      (nmax = 0 → idiv_magic nmax d = magicSentinel) := by
  have hw : w32 (nmax + 1) = nmax + 1 := w32_small (by rw [U32_eq] at *; omega)
  have hnc : idiv_nc nmax d = U32 - 1 := by
    rw [idiv_nc_eq nmax d hd, hw, if_pos (Nat.div_eq_of_lt (by omega))]
  refine ⟨hnc, fun h0 => ?_⟩
  subst h0
  rw [idiv_magic, if_neg (by omega)]
  have hfls : bim_fls 0 = 0 := rfl
  rw [hfls]
  have hstep : idivSearch (idiv_nc 0 d) d 0 (2 * 0 + 1) = none := by
    rw [idivSearch]
    rw [if_neg]
    · rfl
    · rw [hnc]
      have h1 : 2 ^ 0 - 1 = 0 := rfl
      have hmd : d - 1 - (2 ^ 0 - 1) % d = d - 1 := by
        rw [h1, Nat.zero_mod]
        omega
      rw [hmd]
      have : 1 * 1 ≤ (U32 - 1) * (d - 1) :=
        Nat.mul_le_mul (by rw [U32_eq]; omega) (by omega)
      simp only [not_lt]
      calc (2 : Nat) ^ 0 = 1 := rfl
      _ ≤ (U32 - 1) * (d - 1) := by omega
  simp only [hstep]
  rfl

/-- Witness for C9: at `nmax = 0`, `d = 5` the bound wraps to `2^32 - 1` and
the sentinel is returned. -/
theorem C9_witness :
    idiv_nc 0 5 = U32 - 1 ∧ (0 = 0 → idiv_magic 0 5 = magicSentinel) :=
  C9_underflow_nc 0 5 (by decide) (by decide) (by decide)

/-- Counterexample to C9 as stated: `nmax = 1`, `d = 4` satisfies
`nmax + 1 < d`, yet `idiv_magic` returns `(1, 2)` — a valid non-sentinel
pair (the wrapped `nc` is `2^32 - 1`, not `2^64 - 1`, and a power-of-two
divisor can still pass the test with `mod = 0`). -/
theorem C9_counterexample :
    (1 + 1 < 4) ∧ idiv_magic 1 4 = ⟨1, 2⟩ ∧
      idiv_magic 1 4 ≠ magicSentinel := by
  decide

/-! Claim theorems for the routine selectors and the alignment resolver. -/

/-- C3 (amended): the generic-forward selector returns id 0 when the
reduction depth is not divisible by 8 AND the narrow-N condition
(`s = ceil(n/16)` odd and `n ≤ 112`) does not hold. The original claim's
"regardless of the narrow-N condition" is wrong: in the source's final
expression the narrow-N test is examined first and takes precedence (see the
counterexample `n = 16`, `k = 1`). -/
theorem C3_fconv_unaligned_k (n k : Nat) (hk : k % 8 ≠ 0)
    (hnar : ¬(w32 (n + 15) / 16 % 2 = 1 ∧ n ≤ 112)) :
    choose_routine_fconv n k = 0 := by
  unfold choose_routine_fconv
  rw [if_neg, if_pos hk]
  intro hcon
  exact hnar ⟨by omega, hcon.2⟩

/-- Witness for C3: `n = 32` has `s = 2` even, `k = 1` is not divisible by
8, and the selector returns 0. -/
theorem C3_witness : choose_routine_fconv 32 1 = 0 :=
  C3_fconv_unaligned_k 32 1 (by decide) (by decide)

/-- Counterexample to C3 as stated: `n = 16`, `k = 1` satisfies
`k mod 8 ≠ 0`, yet `s = ceil(31/16) = 1` is odd and `n ≤ 112`, and the
selector returns the narrow-N id 1, not 0. -/
theorem C3_counterexample :
    (1 : Nat) % 8 ≠ 0 ∧ w32 (16 + 15) / 16 % 2 = 1 ∧ (16 : Nat) ≤ 112 ∧
      choose_routine_fconv 16 1 = 1 := by
  decide

/-- C6 (confirmed): `get_alignment` returns only 127 or 255, and returns 127
exactly when the direction is forward (`dir = 0`) with id 1 or 4, or
backward (`dir ≠ 0`) with id 0 or 3. -/
theorem C6_alignment_values (id dir : Nat) :
    (get_alignment id dir = 127 ∨ get_alignment id dir = 255) ∧
      (get_alignment id dir = 127 ↔
        ((dir = 0 ∧ (id = 1 ∨ id = 4)) ∨ (dir ≠ 0 ∧ (id = 0 ∨ id = 3)))) := by
  unfold get_alignment
  by_cases hdir : dir = 0
  · rw [if_pos hdir]
    by_cases hid : id = 1 ∨ id = 4
    · rw [if_pos hid]
      exact ⟨Or.inl rfl, by tauto⟩
    · rw [if_neg hid]
      refine ⟨Or.inr rfl, ?_⟩
      constructor
      · intro h
        exact absurd h (by decide)
      · intro h
        rcases h with ⟨_, h2⟩ | ⟨h1, _⟩
        · exact absurd h2 hid
        · exact absurd hdir h1
  · rw [if_neg hdir]
    by_cases hid : id = 0 ∨ id = 3
    · rw [if_pos hid]
      exact ⟨Or.inl rfl, by tauto⟩
    · rw [if_neg hid]
      refine ⟨Or.inr rfl, ?_⟩
      constructor
      · intro h
        exact absurd h (by decide)
      · intro h
        rcases h with ⟨h1, _⟩ | ⟨_, h2⟩
        · exact absurd h1 hdir
        · exact absurd h2 hid

/-- C10 (confirmed): `build_params_ufconv` rounds `dimx` with mask 255
exactly when the low 16 bits of the chosen routine id are 1 or 2, and with
mask 127 otherwise, independent of direction; this differs from
`get_alignment`, which maps forward id 1 to 127. -/
theorem C10_ufconv_alignment (ctx : ConvolutionContext) :
    ((build_params_ufconv ctx).ntidx =
      alignUp (build_params_ufconv ctx).dimx
        (if (build_params_ufconv ctx).id % 65536 = 1 ∨
            (build_params_ufconv ctx).id % 65536 = 2 then 255 else 127)) ∧
      get_alignment 1 0 = 127 ∧
      (if (1 : Nat) = 1 ∨ (1 : Nat) = 2 then (255 : Nat) else 127) = 255 := by
  refine ⟨?_, by decide, by decide⟩
  simp only [build_params_ufconv]
  by_cases h : 0 < choose_routine_ufconv (w32 (ctx.in_width * ctx.in_height))
      ctx.n_outputs ctx.n_inputs (if ctx.isForward then 0 else 1) % 65536 ∧
      choose_routine_ufconv (w32 (ctx.in_width * ctx.in_height))
      ctx.n_outputs ctx.n_inputs (if ctx.isForward then 0 else 1) % 65536 < 3
  · rw [if_pos h, if_pos (by omega)]
  · rw [if_neg h, if_neg (by omega)]

/-! Helper lemmas for the scratch-size calculator and plan builder. -/

theorem padWord_eq_zero_iff (ctx : ConvolutionContext)
    (hpu : effPu ctx < 256) (hpv : effPv ctx < 256) :
    padWord ctx = 0 ↔ (effPu ctx ||| effPv ctx) = 0 := by
  unfold padWord
  rw [lor_eq_zero_iff, lor_eq_zero_iff, lor_eq_zero_iff, lor_eq_zero_iff]
  have h24 : w32 (effPv ctx <<< 24) = effPv ctx * 2 ^ 24 := by
    rw [Nat.shiftLeft_eq]
    exact w32_small (by rw [U32_eq]; omega)
  have h16 : w32 (effPv ctx <<< 16) = effPv ctx * 2 ^ 16 := by
    rw [Nat.shiftLeft_eq]
    exact w32_small (by rw [U32_eq]; omega)
  have h8 : w32 (effPu ctx <<< 8) = effPu ctx * 2 ^ 8 := by
    rw [Nat.shiftLeft_eq]
    exact w32_small (by rw [U32_eq]; omega)
  rw [h24, h16, h8]
  omega

/-- C2 (amended): the direct total from the descriptor and the sum of the
three sizes stored by `build_params_conv` agree whenever the effective
paddings fit in their 8-bit lanes of the packed `pad` word and the 32-bit
index-size sum `(ntidx<<3) + (pk<<2) + 128` does not overflow. Both
provisos are needed: the builder tests `p.pad != 0` where the direct
calculator tests `(pu|pv) != 0`, and the builder computes `sidx` entirely
in `uint32_t` where the direct calculator computes `pk<<2` in `size_t`
(see the counterexample, where the two totals differ by `2^32`). -/
theorem C2_auxbuf_agree (ctx : ConvolutionContext)
    (hpu : effPu ctx < 256) (hpv : effPv ctx < 256)
    (hsx : w32 (ntidxOf ctx * 8) + pkOf ctx * 4 + 128 < U32) :
    get_auxbuf_size_ctx ctx = get_auxbuf_size_plan (build_params_conv ctx) := by
  have hpad := padWord_eq_zero_iff ctx hpu hpv
  have hlda : ldaP ctx = ldaOf ctx := by
    simp only [ldaP, ldaOf]
    by_cases h : (effPu ctx ||| effPv ctx) = 0
    · rw [if_neg (not_not_intro (hpad.mpr h)), if_neg (not_not_intro h)]
    · rw [if_pos (fun hp => h (hpad.mp hp)), if_pos h]
  have hspad : (build_params_conv ctx).spad = spadOf ctx := by
    simp only [build_params_conv, spadOf, agsOf]
    by_cases h : (effPu ctx ||| effPv ctx) = 0
    · rw [if_pos (hpad.mpr h), if_pos h]
    · rw [if_neg (fun hp => h (hpad.mp hp)), if_neg h, hlda]
  have hsperm : (build_params_conv ctx).sperm = spermOf ctx := by
    simp only [build_params_conv, spermOf]
  have hsidx : (build_params_conv ctx).sidx = sidxOf ctx := by
    simp only [build_params_conv, sidxOf]
    have hpk4 : w32 (pkOf ctx * 4) = pkOf ctx * 4 :=
      w32_small (by rw [U32_eq] at *; omega)
    rw [hpk4, w32_small hsx]
  rw [get_auxbuf_size_ctx, get_auxbuf_size_plan, hspad, hsperm, hsidx]

/-- Witness for C2: the spec's round-trip descriptor (batch 1, 3 input
channels, 64 outputs, 3x3 kernel, pad 1, stride 1, forward). -/
theorem C2_witness :
    get_auxbuf_size_ctx ⟨1, 1, 1, 1, 3, 8, 8, 3, 3, 8, 8, 64, 1, 1, 1, 1, true⟩ =
      get_auxbuf_size_plan (build_params_conv
        ⟨1, 1, 1, 1, 3, 8, 8, 3, 3, 8, 8, 64, 1, 1, 1, 1, true⟩) :=
  C2_auxbuf_agree ⟨1, 1, 1, 1, 3, 8, 8, 3, 3, 8, 8, 64, 1, 1, 1, 1, true⟩
    (by decide) (by decide) (by decide)

/-- Counterexample to C2 as stated: a forward descriptor with `2^30` input
channels and 1x1 geometry. The rounded reduction depth is `pk = 2^30`, so
the direct calculator's 64-bit `pk<<2` contributes `2^32`, while the plan
builder's 32-bit `pk<<2` wraps to 0: the totals are `2^32 + 1152` versus
`1152`. -/
theorem C2_counterexample :
    get_auxbuf_size_ctx
        ⟨0, 0, 1, 1, 1073741824, 1, 1, 1, 1, 1, 1, 1, 1, 1, 1, 1, true⟩ =
      4294968448 ∧
    get_auxbuf_size_plan (build_params_conv
        ⟨0, 0, 1, 1, 1073741824, 1, 1, 1, 1, 1, 1, 1, 1, 1, 1, 1, true⟩) =
      1152 := by
  decide

/-- A well-formed, overflow-free descriptor: positive counts, all size
fields at most 64, and padding strictly smaller than the kernel extent on
each axis (so the backward mirroring cannot wrap). Under these bounds every
`uint32_t` intermediate of the scratch-size calculator is exact. -/
abbrev SmallCtx (ctx : ConvolutionContext) : Prop :=
  1 ≤ ctx.group_counts ∧ ctx.group_counts ≤ 64 ∧
  1 ≤ ctx.batch_sz ∧ ctx.batch_sz ≤ 64 ∧
  1 ≤ ctx.n_inputs ∧ ctx.n_inputs ≤ 64 ∧
  1 ≤ ctx.in_width ∧ ctx.in_width ≤ 64 ∧
  1 ≤ ctx.in_height ∧ ctx.in_height ≤ 64 ∧
  1 ≤ ctx.out_width ∧ ctx.out_width ≤ 64 ∧
  1 ≤ ctx.out_height ∧ ctx.out_height ≤ 64 ∧
  1 ≤ ctx.n_outputs ∧ ctx.n_outputs ≤ 64 ∧
  ctx.kernel_size_w ≤ 64 ∧ ctx.kernel_size_h ≤ 64 ∧
  ctx.pad_w < ctx.kernel_size_w ∧ ctx.pad_h < ctx.kernel_size_h

theorem effPad_le (ctx : ConvolutionContext) (h : SmallCtx ctx) :
    effPu ctx ≤ 63 ∧ effPv ctx ≤ 63 := by
  obtain ⟨-, -, -, -, -, -, -, -, -, -, -, -, -, -, -, -, hkw, hkh, hpw, hph⟩ := h
  constructor
  · unfold effPu
    by_cases hf : ctx.isForward
    · rw [if_pos hf]; omega
    · rw [if_neg hf]
      have hin : sub32 ctx.kernel_size_w ctx.pad_w =
          ctx.kernel_size_w - ctx.pad_w :=
        sub32_eq_of_le (by omega) (by rw [U32_eq]; omega)
      rw [hin, sub32_eq_of_le (by omega) (by rw [U32_eq]; omega)]
      omega
  · unfold effPv
    by_cases hf : ctx.isForward
    · rw [if_pos hf]; omega
    · rw [if_neg hf]
      have hin : sub32 ctx.kernel_size_h ctx.pad_h =
          ctx.kernel_size_h - ctx.pad_h :=
        sub32_eq_of_le (by omega) (by rw [U32_eq]; omega)
      rw [hin, sub32_eq_of_le (by omega) (by rw [U32_eq]; omega)]
      omega

theorem pnx_facts (ctx : ConvolutionContext) (h : SmallCtx ctx) :
    1 ≤ pnxOf ctx ∧ pnxOf ctx ≤ 190 ∧ 1 ≤ pnyOf ctx ∧ pnyOf ctx ≤ 190 := by
  obtain ⟨hu, hv⟩ := effPad_le ctx h
  obtain ⟨-, -, -, -, -, -, hw1, hw2, hh1, hh2, -⟩ := h
  unfold pnxOf pnyOf
  rw [w32_small (by rw [U32_eq]; omega), w32_small (by rw [U32_eq]; omega)]
  omega

theorem k_facts (ctx : ConvolutionContext) (h : SmallCtx ctx) :
    1 ≤ kOf ctx ∧ kOf ctx ≤ 262144 := by
  obtain ⟨-, -, -, -, hi1, hi2, -, -, -, -, -, -, -, -, -, -, hkw, hkh, hpw, hph⟩ := h
  unfold kOf
  have hb : ctx.kernel_size_w * ctx.kernel_size_h ≤ 4096 :=
    Nat.mul_le_mul hkw hkh
  have hb2 : ctx.kernel_size_w * ctx.kernel_size_h * ctx.n_inputs ≤ 262144 := by
    calc ctx.kernel_size_w * ctx.kernel_size_h * ctx.n_inputs ≤ 4096 * 64 :=
      Nat.mul_le_mul hb hi2
    _ = 262144 := by norm_num
  have hp : 1 ≤ ctx.kernel_size_w * ctx.kernel_size_h * ctx.n_inputs :=
    Nat.mul_pos (Nat.mul_pos (by omega) (by omega)) (by omega)
  rw [w32_small (by rw [U32_eq]; omega)]
  omega

theorem m_facts (ctx : ConvolutionContext) (h : SmallCtx ctx) :
    1 ≤ mOf ctx ∧ mOf ctx ≤ 262144 ∧
      mOf ctx = ctx.out_width * ctx.out_height * ctx.batch_sz := by
  obtain ⟨-, -, hb1, hb2, -, -, -, -, -, -, ho1, ho2, hoh1, hoh2, -⟩ := h
  unfold mOf ldcOf
  have hldc : ctx.out_width * ctx.out_height ≤ 4096 := Nat.mul_le_mul ho2 hoh2
  have hldc1 : 1 ≤ ctx.out_width * ctx.out_height :=
    Nat.mul_pos (by omega) (by omega)
  rw [w32_small (show ctx.out_width * ctx.out_height < U32 by rw [U32_eq]; omega)]
  have hm : ctx.out_width * ctx.out_height * ctx.batch_sz ≤ 262144 := by
    calc ctx.out_width * ctx.out_height * ctx.batch_sz ≤ 4096 * 64 :=
      Nat.mul_le_mul hldc hb2
    _ = 262144 := by norm_num
  have hm1 : 1 ≤ ctx.out_width * ctx.out_height * ctx.batch_sz :=
    Nat.mul_pos hldc1 (by omega)
  rw [w32_small (by rw [U32_eq]; omega)]
  omega

theorem ldaScale_facts (lda0 bs : Nat) (h1 : 1 ≤ lda0) (h2 : lda0 ≤ 36100)
    (h3 : 1 ≤ bs) (h4 : bs ≤ 64) :
    1 ≤ ldaScale lda0 bs ∧ ldaScale lda0 bs ≤ 2310528 := by
  unfold ldaScale
  have hmul : lda0 * bs ≤ 2310400 := by
    calc lda0 * bs ≤ 36100 * 64 := Nat.mul_le_mul h2 h4
    _ = 2310400 := by norm_num
  have hmul1 : 1 ≤ lda0 * bs := Nat.mul_pos (by omega) (by omega)
  rw [w32_small (by rw [U32_eq]; omega)]
  by_cases hc : 1024 < lda0 * bs
  · rw [if_pos hc]
    have h63 : w32 (lda0 * bs + 63) = lda0 * bs + 63 :=
      w32_small (by rw [U32_eq]; omega)
    rw [h63]
    have ht2 : (lda0 * bs + 63) / 64 ≤ 36100 := by
      have hle : lda0 * bs + 63 ≤ 2310463 := by omega
      calc (lda0 * bs + 63) / 64 ≤ 2310463 / 64 := Nat.div_le_div_right hle
      _ = 36100 := by norm_num
    have ht1 : 1 ≤ (lda0 * bs + 63) / 64 := by
      rw [Nat.le_div_iff_mul_le (by norm_num)]
      omega
    have hmod := Nat.mod_two_eq_zero_or_one ((lda0 * bs + 63) / 64)
    have houter : w32 (((lda0 * bs + 63) / 64 + (1 - (lda0 * bs + 63) / 64 % 2)) * 64) =
        ((lda0 * bs + 63) / 64 + (1 - (lda0 * bs + 63) / 64 % 2)) * 64 :=
      w32_small (by rw [U32_eq]; omega)
    rw [houter]
    omega
  · rw [if_neg hc]
    omega

theorem lda_facts (ctx : ConvolutionContext) (h : SmallCtx ctx) :
    1 ≤ ldaOf ctx ∧ ldaOf ctx ≤ 2310528 := by
  obtain ⟨hp1, hp2, hq1, hq2⟩ := pnx_facts ctx h
  obtain ⟨-, -, hb1, hb2, -⟩ := h
  unfold ldaOf
  have hprod : pnxOf ctx * pnyOf ctx ≤ 36100 := Nat.mul_le_mul hp2 hq2
  have hprod1 : 1 ≤ pnxOf ctx * pnyOf ctx := Nat.mul_pos (by omega) (by omega)
  rw [w32_small (by rw [U32_eq]; omega)]
  by_cases hc : (effPu ctx ||| effPv ctx) ≠ 0
  · rw [if_pos hc]
    exact ldaScale_facts _ _ (by omega) (by omega) (by omega) (by omega)
  · rw [if_neg hc]
    omega

theorem get_alignment_cases (id dir : Nat) :
    get_alignment id dir = 127 ∨ get_alignment id dir = 255 := by
  unfold get_alignment
  by_cases h1 : dir = 0
  · rw [if_pos h1]
    by_cases h2 : id = 1 ∨ id = 4
    · rw [if_pos h2]; exact Or.inl rfl
    · rw [if_neg h2]; exact Or.inr rfl
  · rw [if_neg h1]
    by_cases h2 : id = 0 ∨ id = 3
    · rw [if_pos h2]; exact Or.inl rfl
    · rw [if_neg h2]; exact Or.inr rfl

theorem ntidx_facts (ctx : ConvolutionContext) (h : SmallCtx ctx) :
    mOf ctx ≤ ntidxOf ctx ∧ ntidxOf ctx ≤ 262399 := by
  obtain ⟨hm1, hm2, -⟩ := m_facts ctx h
  unfold ntidxOf
  set mask := get_alignment (idOf ctx) (if ctx.isForward then 0 else 1) with hmask
  have hcases := get_alignment_cases (idOf ctx) (if ctx.isForward then 0 else 1)
  rw [← hmask] at hcases
  have hlt : mOf ctx + mask < U32 := by rw [U32_eq]; rcases hcases with h | h <;> omega
  constructor
  · exact le_alignUp hlt
  · have := alignUp_le hlt
    rcases hcases with h | h <;> omega

theorem pk_facts (ctx : ConvolutionContext) (h : SmallCtx ctx) :
    8 ≤ pkOf ctx ∧ pkOf ctx ≤ 262159 := by
  obtain ⟨hk1, hk2⟩ := k_facts ctx h
  have h7 : 8 ≤ alignUp (kOf ctx) 7 ∧ alignUp (kOf ctx) 7 ≤ 262151 := by
    have hlt : kOf ctx + 7 < U32 := by rw [U32_eq]; omega
    have ha := @alignUp_lower (kOf ctx) 7 (by omega) hlt
    have hb := @alignUp_le (kOf ctx) 7 hlt
    omega
  have h15 : 16 ≤ alignUp (kOf ctx) 15 ∧ alignUp (kOf ctx) 15 ≤ 262159 := by
    have hlt : kOf ctx + 15 < U32 := by rw [U32_eq]; omega
    have ha := @alignUp_lower (kOf ctx) 15 (by omega) hlt
    have hb := @alignUp_le (kOf ctx) 15 hlt
    omega
  simp only [pkOf]
  by_cases hc : idOf ctx ≠ (if ctx.isForward then 4 else 3)
  · rw [if_pos hc]
    omega
  · rw [if_neg hc]
    omega

theorem r4n_facts (ctx : ConvolutionContext) (h : SmallCtx ctx) :
    4 ≤ alignUp ctx.n_outputs 3 ∧ alignUp ctx.n_outputs 3 ≤ 67 := by
  obtain ⟨-, -, -, -, -, -, -, -, -, -, -, -, -, -, hn1, hn2, -⟩ := h
  have hlt : ctx.n_outputs + 3 < U32 := by rw [U32_eq]; omega
  have ha := @alignUp_lower ctx.n_outputs 3 (by omega) hlt
  have hb := @alignUp_le ctx.n_outputs 3 hlt
  omega

/-- C4 (amended): for a well-formed, overflow-free descriptor, the
padding-buffer size is 0 exactly when the EFFECTIVE padding is zero on both
axes — i.e. the descriptor padding for forward problems, but the mirrored
padding `kernel_extent - pad - 1` for backward problems — the
permutation-buffer size is 0 exactly when the direction is forward, and all
three scratch sizes are nonnegative. The original claim's condition "the
descriptor's padding is all-zero" is wrong for the backward direction (see
the counterexample: zero descriptor padding, 3x3 kernel, backward, yields a
256-byte padding buffer). -/
theorem C4_scratch_zero_iff (ctx : ConvolutionContext) (h : SmallCtx ctx) :
    (spadOf ctx = 0 ↔ (effPu ctx = 0 ∧ effPv ctx = 0)) ∧
      (spermOf ctx = 0 ↔ ctx.isForward = true) ∧
      0 ≤ spadOf ctx ∧ 0 ≤ spermOf ctx ∧ 0 ≤ sidxOf ctx := by
  refine ⟨?_, ?_, Nat.zero_le _, Nat.zero_le _, Nat.zero_le _⟩
  · unfold spadOf
    by_cases hl : (effPu ctx ||| effPv ctx) = 0
    · rw [if_pos hl]
      exact iff_of_true rfl ((lor_eq_zero_iff _ _).mp hl)
    · rw [if_neg hl]
      refine iff_of_false ?_ (fun hz => hl ((lor_eq_zero_iff _ _).mpr hz))
      obtain ⟨hl1, hl2⟩ := lda_facts ctx h
      obtain ⟨hg1, hg2, -, -, hi1, hi2, -⟩ := h
      have hng : w32 (4 * ctx.group_counts) = 4 * ctx.group_counts :=
        w32_small (by rw [U32_eq]; omega)
      have hprod : ldaOf ctx * ctx.n_inputs ≤ 147873792 := by
        calc ldaOf ctx * ctx.n_inputs ≤ 2310528 * 64 := Nat.mul_le_mul hl2 hi2
        _ = 147873792 := by norm_num
      have hags : agsOf ctx = ldaOf ctx * ctx.n_inputs := by
        unfold agsOf
        exact w32_small (by rw [U32_eq]; omega)
      rw [hng, hags]
      have hpos : 0 < 4 * ctx.group_counts * (ldaOf ctx * ctx.n_inputs) :=
        Nat.mul_pos (by omega) (Nat.mul_pos (by omega) (by omega))
      omega
  · unfold spermOf
    by_cases hf : ctx.isForward
    · rw [if_pos hf]
      exact iff_of_true rfl hf
    · rw [if_neg hf]
      refine iff_of_false ?_ hf
      obtain ⟨hpk1, hpk2⟩ := pk_facts ctx h
      obtain ⟨hr1, hr2⟩ := r4n_facts ctx h
      obtain ⟨hg1, hg2, -⟩ := h
      have hng : w32 (4 * ctx.group_counts) = 4 * ctx.group_counts :=
        w32_small (by rw [U32_eq]; omega)
      rw [hng]
      have hub : 4 * ctx.group_counts * pkOf ctx * alignUp ctx.n_outputs 3 ≤
          256 * 262159 * 67 :=
        Nat.mul_le_mul (Nat.mul_le_mul (by omega) hpk2) hr2
      have hw : w64 (4 * ctx.group_counts * pkOf ctx * alignUp ctx.n_outputs 3) =
          4 * ctx.group_counts * pkOf ctx * alignUp ctx.n_outputs 3 :=
        w64_small (by rw [U64_eq]; omega)
      rw [hw]
      have hpos : 0 < 4 * ctx.group_counts * pkOf ctx * alignUp ctx.n_outputs 3 :=
        Nat.mul_pos (Nat.mul_pos (by omega) (by omega)) (by omega)
      omega

/-- Witness for C4: a backward descriptor with pad 1 and 3x3 kernel. -/
theorem C4_witness :
    (spadOf ⟨1, 1, 1, 1, 3, 8, 8, 3, 3, 8, 8, 64, 1, 1, 1, 1, false⟩ = 0 ↔
      (effPu ⟨1, 1, 1, 1, 3, 8, 8, 3, 3, 8, 8, 64, 1, 1, 1, 1, false⟩ = 0 ∧
        effPv ⟨1, 1, 1, 1, 3, 8, 8, 3, 3, 8, 8, 64, 1, 1, 1, 1, false⟩ = 0)) ∧
      (spermOf ⟨1, 1, 1, 1, 3, 8, 8, 3, 3, 8, 8, 64, 1, 1, 1, 1, false⟩ = 0 ↔
        (⟨1, 1, 1, 1, 3, 8, 8, 3, 3, 8, 8, 64, 1, 1, 1, 1,
          false⟩ : ConvolutionContext).isForward = true) ∧
      0 ≤ spadOf ⟨1, 1, 1, 1, 3, 8, 8, 3, 3, 8, 8, 64, 1, 1, 1, 1, false⟩ ∧
      0 ≤ spermOf ⟨1, 1, 1, 1, 3, 8, 8, 3, 3, 8, 8, 64, 1, 1, 1, 1, false⟩ ∧
      0 ≤ sidxOf ⟨1, 1, 1, 1, 3, 8, 8, 3, 3, 8, 8, 64, 1, 1, 1, 1, false⟩ :=
  C4_scratch_zero_iff ⟨1, 1, 1, 1, 3, 8, 8, 3, 3, 8, 8, 64, 1, 1, 1, 1, false⟩
    (by decide)

/-- Counterexample to C4 as stated: a backward descriptor whose padding
fields are both zero, yet whose padding-buffer size is 256 — because the
backward path mirrors the padding to `kernel - pad - 1 = 2` before the
zero test. -/
theorem C4_counterexample :
    (⟨0, 0, 1, 1, 1, 4, 4, 3, 3, 2, 2, 1, 1, 1, 1, 1,
        false⟩ : ConvolutionContext).pad_w = 0 ∧
      (⟨0, 0, 1, 1, 1, 4, 4, 3, 3, 2, 2, 1, 1, 1, 1, 1,
        false⟩ : ConvolutionContext).pad_h = 0 ∧
      spadOf ⟨0, 0, 1, 1, 1, 4, 4, 3, 3, 2, 2, 1, 1, 1, 1, 1, false⟩ = 256 := by
  decide

theorem ldaScale_mono (lda0 bs1 bs2 : Nat) (h0b : lda0 ≤ 36100)
    (hb : bs1 ≤ bs2) (hb2 : bs2 ≤ 64) :
    ldaScale lda0 bs1 ≤ ldaScale lda0 bs2 := by
  unfold ldaScale
  have hm2 : lda0 * bs2 ≤ 2310400 := by
    calc lda0 * bs2 ≤ 36100 * 64 := Nat.mul_le_mul h0b hb2
    _ = 2310400 := by norm_num
  have hmono : lda0 * bs1 ≤ lda0 * bs2 := Nat.mul_le_mul_left lda0 hb
  have e1 : w32 (lda0 * bs1) = lda0 * bs1 := w32_small (by rw [U32_eq]; omega)
  have e2 : w32 (lda0 * bs2) = lda0 * bs2 := w32_small (by rw [U32_eq]; omega)
  rw [e1, e2]
  by_cases hc1 : 1024 < lda0 * bs1
  · have hc2 : 1024 < lda0 * bs2 := by omega
    rw [if_pos hc1, if_pos hc2]
    have e3 : w32 (lda0 * bs1 + 63) = lda0 * bs1 + 63 :=
      w32_small (by rw [U32_eq]; omega)
    have e4 : w32 (lda0 * bs2 + 63) = lda0 * bs2 + 63 :=
      w32_small (by rw [U32_eq]; omega)
    rw [e3, e4]
    have htle : (lda0 * bs1 + 63) / 64 ≤ (lda0 * bs2 + 63) / 64 :=
      Nat.div_le_div_right (by omega)
    have ht1b : (lda0 * bs1 + 63) / 64 ≤ 36100 := by
      have hle : lda0 * bs1 + 63 ≤ 2310463 := by omega
      calc (lda0 * bs1 + 63) / 64 ≤ 2310463 / 64 := Nat.div_le_div_right hle
      _ = 36100 := by norm_num
    have ht2b : (lda0 * bs2 + 63) / 64 ≤ 36100 := by
      have hle : lda0 * bs2 + 63 ≤ 2310463 := by omega
      calc (lda0 * bs2 + 63) / 64 ≤ 2310463 / 64 := Nat.div_le_div_right hle
      _ = 36100 := by norm_num
    have hm1p := Nat.mod_two_eq_zero_or_one ((lda0 * bs1 + 63) / 64)
    have hm2p := Nat.mod_two_eq_zero_or_one ((lda0 * bs2 + 63) / 64)
    have e5 : w32 (((lda0 * bs1 + 63) / 64 + (1 - (lda0 * bs1 + 63) / 64 % 2)) * 64) =
        ((lda0 * bs1 + 63) / 64 + (1 - (lda0 * bs1 + 63) / 64 % 2)) * 64 :=
      w32_small (by rw [U32_eq]; omega)
    have e6 : w32 (((lda0 * bs2 + 63) / 64 + (1 - (lda0 * bs2 + 63) / 64 % 2)) * 64) =
        ((lda0 * bs2 + 63) / 64 + (1 - (lda0 * bs2 + 63) / 64 % 2)) * 64 :=
      w32_small (by rw [U32_eq]; omega)
    rw [e5, e6]
    exact Nat.mul_le_mul_right 64 (by omega)
  · rw [if_neg hc1]
    by_cases hc2 : 1024 < lda0 * bs2
    · rw [if_pos hc2]
      have e4 : w32 (lda0 * bs2 + 63) = lda0 * bs2 + 63 :=
        w32_small (by rw [U32_eq]; omega)
      rw [e4]
      have ht2a : 17 ≤ (lda0 * bs2 + 63) / 64 := by
        rw [Nat.le_div_iff_mul_le (by norm_num)]
        omega
      have ht2b : (lda0 * bs2 + 63) / 64 ≤ 36100 := by
        have hle : lda0 * bs2 + 63 ≤ 2310463 := by omega
        calc (lda0 * bs2 + 63) / 64 ≤ 2310463 / 64 := Nat.div_le_div_right hle
        _ = 36100 := by norm_num
      have hm2p := Nat.mod_two_eq_zero_or_one ((lda0 * bs2 + 63) / 64)
      have e6 : w32 (((lda0 * bs2 + 63) / 64 + (1 - (lda0 * bs2 + 63) / 64 % 2)) * 64) =
          ((lda0 * bs2 + 63) / 64 + (1 - (lda0 * bs2 + 63) / 64 % 2)) * 64 :=
        w32_small (by rw [U32_eq]; omega)
      rw [e6]
      have hlow : 17 * 64 ≤
          ((lda0 * bs2 + 63) / 64 + (1 - (lda0 * bs2 + 63) / 64 % 2)) * 64 :=
        Nat.mul_le_mul_right 64 (by omega)
      omega
    · rw [if_neg hc2]
      omega

/-- C7 (amended): for well-formed, overflow-free descriptors, all three
scratch sizes are non-decreasing in the batch size, and the padding- and
permutation-buffer sizes are non-decreasing in the input-channel count; the
padding-buffer size does not depend on the output-channel count at all.
Monotonicity in the channel counts fails in general for the index buffer
(and, in the output-channel count, for the permutation buffer), because the
channel counts drive the routine id, which switches the alignment mask and
rounding granularity — see the counterexample, where raising the
input-channel count from 8 to 16 shrinks the index buffer. -/
theorem C7_monotonicity (ctx : ConvolutionContext) (bs2 inc2 n2 : Nat)
    (h : SmallCtx ctx)
    (hbs1 : ctx.batch_sz ≤ bs2) (hbs2 : bs2 ≤ 64)
    (hinc1 : ctx.n_inputs ≤ inc2) (hinc2 : inc2 ≤ 64) :
    (spadOf ctx ≤ spadOf { ctx with batch_sz := bs2 } ∧
      spermOf ctx ≤ spermOf { ctx with batch_sz := bs2 } ∧
      sidxOf ctx ≤ sidxOf { ctx with batch_sz := bs2 }) ∧
    (spadOf ctx ≤ spadOf { ctx with n_inputs := inc2 } ∧
      spermOf ctx ≤ spermOf { ctx with n_inputs := inc2 }) ∧
    spadOf { ctx with n_outputs := n2 } = spadOf ctx := by
  have hcopy := h
  obtain ⟨hg1, hg2, hb1, hb2x, hi1, hi2, hw1, hw2, hh1, hh2, ho1, ho2,
    hoh1, hoh2, hn1x, hn2x, hkw, hkh, hpw, hph⟩ := hcopy
  set ctxB : ConvolutionContext := { ctx with batch_sz := bs2 } with hctxB
  set ctxI : ConvolutionContext := { ctx with n_inputs := inc2 } with hctxI
  have hB : SmallCtx ctxB :=
    ⟨hg1, hg2, (show 1 ≤ bs2 by omega), hbs2, hi1, hi2, hw1, hw2, hh1, hh2,
      ho1, ho2, hoh1, hoh2, hn1x, hn2x, hkw, hkh, hpw, hph⟩
  have hI : SmallCtx ctxI :=
    ⟨hg1, hg2, hb1, hb2x, (show 1 ≤ inc2 by omega), hinc2, hw1, hw2, hh1, hh2,
      ho1, ho2, hoh1, hoh2, hn1x, hn2x, hkw, hkh, hpw, hph⟩
  have hBepu : effPu ctxB = effPu ctx := rfl
  have hBepv : effPv ctxB = effPv ctx := rfl
  have hBpnx : pnxOf ctxB = pnxOf ctx := rfl
  have hBpny : pnyOf ctxB = pnyOf ctx := rfl
  have hBbs : ctxB.batch_sz = bs2 := rfl
  have hBng : ctxB.group_counts = ctx.group_counts := rfl
  have hBinc : ctxB.n_inputs = ctx.n_inputs := rfl
  have hIepu : effPu ctxI = effPu ctx := rfl
  have hIepv : effPv ctxI = effPv ctx := rfl
  have hIng : ctxI.group_counts = ctx.group_counts := rfl
  have hIinc : ctxI.n_inputs = inc2 := rfl
  obtain ⟨hlda1, hlda2⟩ := lda_facts ctx h
  obtain ⟨hldaB1, hldaB2⟩ := lda_facts ctxB hB
  obtain ⟨hp1, hp2, hq1, hq2⟩ := pnx_facts ctx h
  have hldaM : ldaOf ctx ≤ ldaOf ctxB := by
    simp only [ldaOf]
    rw [hBpnx, hBpny, hBepu, hBepv]
    by_cases hl : (effPu ctx ||| effPv ctx) ≠ 0
    · rw [if_pos hl, if_pos hl]
      have e0 : w32 (pnxOf ctx * pnyOf ctx) = pnxOf ctx * pnyOf ctx :=
        w32_small (by rw [U32_eq]; have := Nat.mul_le_mul hp2 hq2; omega)
      rw [e0]
      exact ldaScale_mono _ _ _ (by have := Nat.mul_le_mul hp2 hq2; omega)
        hbs1 hbs2
    · rw [if_neg hl, if_neg hl]
  have hspadB : spadOf ctx ≤ spadOf ctxB := by
    simp only [spadOf, agsOf]
    rw [hBepu, hBepv]
    by_cases hl : (effPu ctx ||| effPv ctx) = 0
    · rw [if_pos hl, if_pos hl]
    · rw [if_neg hl, if_neg hl]
      have e7 : w32 (ldaOf ctx * ctx.n_inputs) = ldaOf ctx * ctx.n_inputs :=
        w32_small (by rw [U32_eq]; have := Nat.mul_le_mul hlda2 hi2; omega)
      have e8 : w32 (ldaOf ctxB * ctx.n_inputs) = ldaOf ctxB * ctx.n_inputs :=
        w32_small (by rw [U32_eq]; have := Nat.mul_le_mul hldaB2 hi2; omega)
      rw [e7, e8]
      exact Nat.mul_le_mul_left _ (Nat.mul_le_mul_right _ hldaM)
  have hspermB : spermOf ctx ≤ spermOf ctxB := Nat.le_refl _
  have hsidxB : sidxOf ctx ≤ sidxOf ctxB := by
    obtain ⟨hnta, hntb⟩ := ntidx_facts ctx h
    obtain ⟨hntaB, hntbB⟩ := ntidx_facts ctxB hB
    have hntM : ntidxOf ctx ≤ ntidxOf ctxB := by
      simp only [ntidxOf]
      have hBid : idOf ctxB = idOf ctx := rfl
      rw [hBid]
      have hmM : mOf ctx ≤ mOf ctxB := by
        obtain ⟨-, -, hmE⟩ := m_facts ctx h
        obtain ⟨-, -, hmEB⟩ := m_facts ctxB hB
        have hBo : ctxB.out_width = ctx.out_width := rfl
        have hBoh : ctxB.out_height = ctx.out_height := rfl
        rw [hmE, hmEB, hBo, hBoh, hBbs]
        exact Nat.mul_le_mul_left _ hbs1
      apply alignUp_mono hmM
      have hmBle : mOf ctxB ≤ 262144 := (m_facts ctxB hB).2.1
      rcases get_alignment_cases (idOf ctx)
        (if ctx.isForward then 0 else 1) with hgc | hgc <;>
        (rw [hgc, U32_eq]; omega)
    simp only [sidxOf]
    have hBpk : pkOf ctxB = pkOf ctx := rfl
    rw [hBpk]
    have e9 : w32 (ntidxOf ctx * 8) = ntidxOf ctx * 8 :=
      w32_small (by rw [U32_eq]; omega)
    have e10 : w32 (ntidxOf ctxB * 8) = ntidxOf ctxB * 8 :=
      w32_small (by rw [U32_eq]; omega)
    rw [e9, e10]
    have hmul8 := Nat.mul_le_mul_right 8 hntM
    omega
  have hspadI : spadOf ctx ≤ spadOf ctxI := by
    simp only [spadOf, agsOf]
    rw [hIepu, hIepv]
    have hldaI : ldaOf ctxI = ldaOf ctx := rfl
    rw [hldaI]
    by_cases hl : (effPu ctx ||| effPv ctx) = 0
    · rw [if_pos hl, if_pos hl]
    · rw [if_neg hl, if_neg hl]
      have e7 : w32 (ldaOf ctx * ctx.n_inputs) = ldaOf ctx * ctx.n_inputs :=
        w32_small (by rw [U32_eq]; have := Nat.mul_le_mul hlda2 hi2; omega)
      have e8 : w32 (ldaOf ctx * inc2) = ldaOf ctx * inc2 :=
        w32_small (by rw [U32_eq]; have := Nat.mul_le_mul hlda2 hinc2; omega)
      rw [e7, e8]
      exact Nat.mul_le_mul_left _ (Nat.mul_le_mul_left _ hinc1)
  have hspermI : spermOf ctx ≤ spermOf ctxI := by
    simp only [spermOf]
    by_cases hf : ctx.isForward
    · rw [if_pos hf, if_pos hf]
    · rw [if_neg hf, if_neg hf]
      have hkM : kOf ctx ≤ kOf ctxI := by
        simp only [kOf]
        have hkb : ctx.kernel_size_w * ctx.kernel_size_h ≤ 4096 :=
          Nat.mul_le_mul hkw hkh
        have eA : w32 (ctx.kernel_size_w * ctx.kernel_size_h * ctx.n_inputs) =
            ctx.kernel_size_w * ctx.kernel_size_h * ctx.n_inputs :=
          w32_small (by rw [U32_eq]; have := Nat.mul_le_mul hkb hi2; omega)
        have eB : w32 (ctx.kernel_size_w * ctx.kernel_size_h * inc2) =
            ctx.kernel_size_w * ctx.kernel_size_h * inc2 :=
          w32_small (by rw [U32_eq]; have := Nat.mul_le_mul hkb hinc2; omega)
        rw [eA, eB]
        exact Nat.mul_le_mul_left _ hinc1
      have hidI : idOf ctxI = idOf ctx := by
        simp only [idOf]
        rw [if_neg hf, if_neg hf]
      have hpkM : pkOf ctx ≤ pkOf ctxI := by
        simp only [pkOf]
        rw [hidI]
        set msk := (if idOf ctx ≠ (if ctx.isForward then 4 else 3) then 7 else 15)
          with hmsk
        have hmle : msk ≤ 15 := by
          rw [hmsk]
          by_cases hx : idOf ctx ≠ (if ctx.isForward then 4 else 3)
          · rw [if_pos hx]
            omega
          · rw [if_neg hx]
        apply alignUp_mono hkM
        have hkb2 := (k_facts ctxI hI).2
        rw [U32_eq]
        omega
      obtain ⟨hpk1, hpk2⟩ := pk_facts ctx h
      obtain ⟨hpkI1, hpkI2⟩ := pk_facts ctxI hI
      obtain ⟨hr1, hr2⟩ := r4n_facts ctx h
      have hng32 : w32 (4 * ctx.group_counts) = 4 * ctx.group_counts :=
        w32_small (by rw [U32_eq]; omega)
      rw [hng32]
      have hub : 4 * ctx.group_counts * pkOf ctx * alignUp ctx.n_outputs 3 ≤
          256 * 262159 * 67 :=
        Nat.mul_le_mul (Nat.mul_le_mul (by omega) hpk2) hr2
      have hubI : 4 * ctx.group_counts * pkOf ctxI * alignUp ctx.n_outputs 3 ≤
          256 * 262159 * 67 :=
        Nat.mul_le_mul (Nat.mul_le_mul (by omega) hpkI2) hr2
      have hwa : w64 (4 * ctx.group_counts * pkOf ctx * alignUp ctx.n_outputs 3) =
          4 * ctx.group_counts * pkOf ctx * alignUp ctx.n_outputs 3 :=
        w64_small (by rw [U64_eq]; omega)
      have hwb : w64 (4 * ctx.group_counts * pkOf ctxI * alignUp ctx.n_outputs 3) =
          4 * ctx.group_counts * pkOf ctxI * alignUp ctx.n_outputs 3 :=
        w64_small (by rw [U64_eq]; omega)
      rw [hwa, hwb]
      exact Nat.mul_le_mul_right _ (Nat.mul_le_mul_left _ hpkM)
  have hspadN : spadOf { ctx with n_outputs := n2 } = spadOf ctx := rfl
  exact ⟨⟨hspadB, hspermB, hsidxB⟩, ⟨hspadI, hspermI⟩, hspadN⟩

/-- Witness for C7: the backward 3x3 descriptor with batch size raised from
1 to 2 and input channels raised from 3 to 4. -/
theorem C7_witness :
    (spadOf ⟨1, 1, 1, 1, 3, 8, 8, 3, 3, 8, 8, 64, 1, 1, 1, 1, false⟩ ≤
      spadOf ({ (⟨1, 1, 1, 1, 3, 8, 8, 3, 3, 8, 8, 64, 1, 1, 1, 1,
        false⟩ : ConvolutionContext) with batch_sz := 2 }) ∧
     spermOf ⟨1, 1, 1, 1, 3, 8, 8, 3, 3, 8, 8, 64, 1, 1, 1, 1, false⟩ ≤
      spermOf ({ (⟨1, 1, 1, 1, 3, 8, 8, 3, 3, 8, 8, 64, 1, 1, 1, 1,
        false⟩ : ConvolutionContext) with batch_sz := 2 }) ∧
     sidxOf ⟨1, 1, 1, 1, 3, 8, 8, 3, 3, 8, 8, 64, 1, 1, 1, 1, false⟩ ≤
      sidxOf ({ (⟨1, 1, 1, 1, 3, 8, 8, 3, 3, 8, 8, 64, 1, 1, 1, 1,
        false⟩ : ConvolutionContext) with batch_sz := 2 })) ∧
    (spadOf ⟨1, 1, 1, 1, 3, 8, 8, 3, 3, 8, 8, 64, 1, 1, 1, 1, false⟩ ≤
      spadOf ({ (⟨1, 1, 1, 1, 3, 8, 8, 3, 3, 8, 8, 64, 1, 1, 1, 1,
        false⟩ : ConvolutionContext) with n_inputs := 4 }) ∧
     spermOf ⟨1, 1, 1, 1, 3, 8, 8, 3, 3, 8, 8, 64, 1, 1, 1, 1, false⟩ ≤
      spermOf ({ (⟨1, 1, 1, 1, 3, 8, 8, 3, 3, 8, 8, 64, 1, 1, 1, 1,
        false⟩ : ConvolutionContext) with n_inputs := 4 })) ∧
    spadOf ({ (⟨1, 1, 1, 1, 3, 8, 8, 3, 3, 8, 8, 64, 1, 1, 1, 1,
        false⟩ : ConvolutionContext) with n_outputs := 32 }) =
      spadOf ⟨1, 1, 1, 1, 3, 8, 8, 3, 3, 8, 8, 64, 1, 1, 1, 1, false⟩ :=
  C7_monotonicity ⟨1, 1, 1, 1, 3, 8, 8, 3, 3, 8, 8, 64, 1, 1, 1, 1, false⟩
    2 4 32 (by decide) (by decide) (by decide) (by decide) (by decide)

/-- Counterexample to C7 as stated: two forward descriptors differing only
in the input-channel count (8 versus 16, all else equal, 128 output
channels, 10x10 output). Raising the channel count moves the forward
routine id from 3 to 4, which tightens the alignment mask from 255 to 127,
and the index-buffer size DECREASES from 2208 to 1216. -/
theorem C7_counterexample :
    sidxOf ⟨0, 0, 1, 1, 8, 1, 1, 1, 1, 10, 10, 128, 1, 1, 1, 1, true⟩ = 2208 ∧
    sidxOf ⟨0, 0, 1, 1, 16, 1, 1, 1, 1, 10, 10, 128, 1, 1, 1, 1, true⟩ = 1216 ∧
    ({ (⟨0, 0, 1, 1, 8, 1, 1, 1, 1, 10, 10, 128, 1, 1, 1, 1,
      true⟩ : ConvolutionContext) with n_inputs := 16 } =
      (⟨0, 0, 1, 1, 16, 1, 1, 1, 1, 10, 10, 128, 1, 1, 1, 1,
        true⟩ : ConvolutionContext)) := by
  decide

